import Mathlib

/-!
Verification of the task-queue controller of `src/ui/convertlist.cpp`
(class `ConvertList`): the data model (tasks with a lifecycle status, a
monotonic id counter, a current-task pointer and a busy flag) and the
operations `addTask`, `removeTask`, `start`, `stop`, `task_finished_slot`
and `progress_refreshed`, shallowly embedded as pure functions on an
explicit state, with the Qt signals and converter calls recorded as an
event list.
-/

namespace ConvertListModel

/-- `Task::Status` from `convertlist.h`: the lifecycle states used in
`convertlist.cpp`. -/
inductive Status where
  | QUEUED
  | RUNNING
  | FINISHED
  | FAILED
deriving DecidableEq

/-- `ConversionParameters`: the fields of the parameter object that
`convertlist.cpp` reads (`param.source`, `param.destination`); the encoder
options are opaque to the controller and not modelled. -/
structure ConversionParameters where
  source : String
  destination : String
deriving DecidableEq

/-- One entry of `m_tasks` together with the display state of its row:
`id` and `status` are the `Task` fields of the source; `progress` models
the value of the row's `ProgressBar` widget and `statusText` the text of
the progress column (set to "Failed" on a failed conversion). -/
structure Task where
  id : Nat
  param : ConversionParameters
  status : Status
  progress : Int
  statusText : String
deriving DecidableEq

/-- The mutable state of a `ConvertList` object: `prev_index` (the id
counter), `m_tasks` (the ordered task list; the tree-widget rows parallel
it, so `topLevelItemCount()` equals its length), `m_current_task`
(modelled by the id of the pointed-to task, since ids are unique) and
`is_busy`. -/
structure ConvertList where
  prev_index : Nat
  m_tasks : List Task
  m_current_task : Option Nat
  is_busy : Bool
deriving DecidableEq

/-- The constructor's initial state: counter 0, no tasks, no current task,
not busy. -/
def initState : ConvertList :=
  { prev_index := 0, m_tasks := [], m_current_task := none, is_busy := false }

/-- Observable effects of one operation: the Qt signals the controller
emits (`start_conversion`, `task_finished`, `all_tasks_finished`) and its
calls into the converter collaborator (`m_converter->start/stop`). -/
inductive Event where
  | start_conversion (i : Nat) (param : ConversionParameters)
  | task_finished (exitcode : Int)
  | all_tasks_finished
  | converter_start (param : ConversionParameters)
  | converter_stop
deriving DecidableEq

/-- Writing through the `m_current_task` pointer: apply `f` to the task
whose id is `cid` (ids are unique in reachable states, so this is the
single pointed-to task), leaving every other task untouched. -/
def updateById (l : List Task) (cid : Nat) (f : Task → Task) : List Task :=
  l.map (fun t => if t.id = cid then f t else t)

/-- `ConvertList::isBusy`. -/
def isBusy (s : ConvertList) : Bool :=
  s.is_busy

/-- `ConvertList::count` (`topLevelItemCount()`; the rows parallel
`m_tasks`). -/
def count (s : ConvertList) : Nat :=
  s.m_tasks.length

/-- `ConvertList::isEmpty`. -/
def isEmpty (s : ConvertList) : Bool :=
  s.m_tasks.length = 0

/-- `ConvertList::addTask`. The probe phase (`m_probe->start`,
`m_probe->wait()`, `m_probe->error()`) is an external synchronous
collaborator; `probe_ok` stands for `m_probe->wait() && !m_probe->error()`.
On success a task with `id = ++prev_index` and status `QUEUED` is appended
(`m_tasks.push_back`) and a fresh row with an empty progress column and a
fresh progress bar is created. Returns the new state and the bool result. -/
def addTask (s : ConvertList) (probe_ok : Bool) (param : ConversionParameters) :
    ConvertList × Bool :=
  if !probe_ok then
    (s, false)
  else
    let task : Task :=
      { id := s.prev_index + 1, param := param, status := Status.QUEUED,
        progress := 0, statusText := "" }
    ({ s with prev_index := s.prev_index + 1, m_tasks := s.m_tasks ++ [task] }, true)

/-- `ConvertList::removeTask`: erase the task at `index` (and its row)
unless it is `RUNNING`, in which case the request is silently ignored.
An out-of-range index is a precondition violation in the source (QList
assertion); it is modelled as a no-op and never relied upon. -/
def removeTask (s : ConvertList) (index : Nat) : ConvertList :=
  match s.m_tasks.get? index with
  | some t =>
      if t.status = Status.RUNNING then s
      else { s with m_tasks := s.m_tasks.eraseIdx index }
  | none => s

/-- `ConvertList::progress_refreshed`: if a task is current, set its row's
progress-bar value to `percentage`; otherwise do nothing. -/
def progress_refreshed (s : ConvertList) (percentage : Int) : ConvertList :=
  match s.m_current_task with
  | some cid =>
      { s with m_tasks := updateById s.m_tasks cid (fun t => { t with progress := percentage }) }
  | none => s

/-- `ConvertList::stop`: if a task is current, reset its displayed
progress to 0 (via `progress_refreshed(0)`), demote it to `QUEUED` and
clear the pointer; unconditionally clear `is_busy` and call
`m_converter->stop()`. -/
def stop (s : ConvertList) : ConvertList × List Event :=
  let s1 :=
    match s.m_current_task with
    | some cid =>
        let sa := progress_refreshed s 0
        { sa with
          m_tasks := updateById sa.m_tasks cid (fun t => { t with status := Status.QUEUED }),
          m_current_task := none }
    | none => s
  ({ s1 with is_busy := false }, [Event.converter_stop])

/-- The scan loop of `ConvertList::start`: find the first `QUEUED` task;
on success return its index, the task as found, and the list with that
task marked `RUNNING`. -/
def startScan : List Task → Option (Nat × Task × List Task)
  | [] => none
  | t :: ts =>
      if t.status = Status.QUEUED then
        some (0, t, { t with status := Status.RUNNING } :: ts)
      else
        match startScan ts with
        | some (i, u, ts2) => some (i + 1, u, t :: ts2)
        | none => none

/-- `ConvertList::start`: no-op when busy; `stop()` and return when the
list is empty; otherwise run the first `QUEUED` task (set `is_busy`, mark
it `RUNNING`, record it as current, call `m_converter->start(task.param)`
and emit `start_conversion(i, task.param)`); if none is `QUEUED`, `stop()`
and emit `all_tasks_finished()`. -/
def start (s : ConvertList) : ConvertList × List Event :=
  if s.is_busy then
    (s, [])
  else if s.m_tasks.length = 0 then
    stop s
  else
    match startScan s.m_tasks with
    | some r =>
        ({ s with is_busy := true, m_tasks := r.2.2, m_current_task := some r.2.1.id },
         [Event.converter_start r.2.1.param, Event.start_conversion r.1 r.2.1.param])
    | none =>
        let r := stop s
        (r.1, r.2 ++ [Event.all_tasks_finished])

/-- The per-task effect of `ConvertList::task_finished_slot`: status
`FINISHED` on exit code 0, else `FAILED` with the progress bar zeroed and
"Failed" written into the progress column. -/
def finishUpd (exitcode : Int) (t : Task) : Task :=
  if exitcode = 0 then { t with status := Status.FINISHED }
  else { t with status := Status.FAILED, progress := 0, statusText := "Failed" }

/-- `ConvertList::task_finished_slot`: no-op without a current task;
otherwise apply `finishUpd` to the current task, clear the pointer, emit
`task_finished(exitcode)`, clear `is_busy` and call `start()` again. -/
def task_finished_slot (s : ConvertList) (exitcode : Int) : ConvertList × List Event :=
  match s.m_current_task with
  | none => (s, [])
  | some cid =>
      let s1 : ConvertList :=
        { s with m_tasks := updateById s.m_tasks cid (finishUpd exitcode),
                 m_current_task := none, is_busy := false }
      let r := start s1
      (r.1, Event.task_finished exitcode :: r.2)

/-- One externally triggered operation on the controller, used to define
the reachable states. -/
inductive Op where
  | add (probe_ok : Bool) (param : ConversionParameters)
  | remove (index : Nat)
  | startOp
  | stopOp
  | finished (exitcode : Int)
  | progress (percentage : Int)

/-- Apply one operation, keeping only the resulting state. -/
def applyOp (s : ConvertList) : Op → ConvertList
  | Op.add probe_ok param => (addTask s probe_ok param).1
  | Op.remove index => removeTask s index
  | Op.startOp => (start s).1
  | Op.stopOp => (stop s).1
  | Op.finished exitcode => (task_finished_slot s exitcode).1
  | Op.progress percentage => progress_refreshed s percentage

/-- States reachable from the constructor's state by any sequence of
operations. -/
inductive Reachable : ConvertList → Prop
  | init : Reachable initState
  | step {s : ConvertList} (op : Op) : Reachable s → Reachable (applyOp s op)

/-- Number of `RUNNING` tasks in a list. -/
def runningCount (l : List Task) : Nat :=
  (l.filter (fun t => t.status = Status.RUNNING)).length

/-- Agreement of the current-task pointer, the task list and the busy
flag: no pointer means no `RUNNING` task and not busy; a pointer means it
points at a `RUNNING` task, exactly one task is `RUNNING`, and the
controller is busy. -/
def currentOk : Option Nat → List Task → Bool → Prop
  | none, l, busy => runningCount l = 0 ∧ busy = false
  | some cid, l, busy =>
      (∃ t ∈ l, t.id = cid ∧ t.status = Status.RUNNING) ∧
      runningCount l = 1 ∧ busy = true

/-- The controller invariant: task ids are pairwise distinct and bounded
by the counter, and the current-task pointer, the busy flag and the
number of `RUNNING` tasks agree. -/
def Inv (s : ConvertList) : Prop :=
  (s.m_tasks.map Task.id).Nodup ∧
  (∀ t ∈ s.m_tasks, t.id ≤ s.prev_index) ∧
  currentOk s.m_current_task s.m_tasks s.is_busy

/-- Recognizer for `task_finished` events, used to count how many
`task_finished` signals an operation emits. -/
def isTaskFinishedEv : Event → Bool
  | Event.task_finished _ => true
  | _ => false

/-- The per-task status edges of the controller's state machine:
`QUEUED → RUNNING` (start), `RUNNING → FINISHED` (exit code 0),
`RUNNING → FAILED` (non-zero exit code) and `RUNNING → QUEUED` (stop). -/
inductive StatusEdge : Status → Status → Prop where
  | run_of_queued : StatusEdge Status.QUEUED Status.RUNNING
  | finish_of_running : StatusEdge Status.RUNNING Status.FINISHED
  | fail_of_running : StatusEdge Status.RUNNING Status.FAILED
  | requeue_of_running : StatusEdge Status.RUNNING Status.QUEUED

/-- A sample parameter set, used to instantiate theorems on concrete
states. -/
def exParam : ConversionParameters :=
  { source := "in.avi", destination := "out.mp4" }

/-- Concrete state: one task enqueued from the initial state. -/
def exState0 : ConvertList :=
  applyOp initState (Op.add true exParam)

/-- Concrete state: one task enqueued and started (it is `RUNNING`). -/
def exState1 : ConvertList :=
  applyOp exState0 Op.startOp

/-- Concrete state: the single task has finished with exit code 0. -/
def exState2 : ConvertList :=
  applyOp exState1 (Op.finished 0)

/-! ### Basic lemmas about the list operations -/

theorem updateById_map_id (l : List Task) (cid : Nat) (f : Task → Task)
    (hf : ∀ t, (f t).id = t.id) :
    (updateById l cid f).map Task.id = l.map Task.id := by
  simp only [updateById, List.map_map]
  apply List.map_congr_left
  intro t _
  by_cases h : t.id = cid <;> simp [h, hf]

theorem mem_updateById {l : List Task} {t : Task} (cid : Nat) (f : Task → Task)
    (ht : t ∈ l) :
    (if t.id = cid then f t else t) ∈ updateById l cid f :=
  List.mem_map_of_mem _ ht

theorem length_updateById (l : List Task) (cid : Nat) (f : Task → Task) :
    (updateById l cid f).length = l.length :=
  List.length_map _ _

theorem updateById_updateById (l : List Task) (cid : Nat) (f g : Task → Task)
    (hf : ∀ t, (f t).id = t.id) :
    updateById (updateById l cid f) cid g = updateById l cid (fun t => g (f t)) := by
  simp only [updateById, List.map_map]
  apply List.map_congr_left
  intro t _
  by_cases h : t.id = cid <;> simp [h, hf]

theorem mem_of_mem_updateById {l : List Task} {cid : Nat} {f : Task → Task} {u : Task}
    (hu : u ∈ updateById l cid f) :
    ∃ t ∈ l, u = if t.id = cid then f t else t := by
  rcases List.mem_map.mp hu with ⟨t, ht, rfl⟩
  exact ⟨t, ht, rfl⟩

theorem runningCount_eq_zero {l : List Task} :
    runningCount l = 0 ↔ ∀ t ∈ l, t.status ≠ Status.RUNNING := by
  simp [runningCount, List.length_eq_zero, List.filter_eq_nil_iff]

theorem runningCount_append (l₁ l₂ : List Task) :
    runningCount (l₁ ++ l₂) = runningCount l₁ + runningCount l₂ := by
  simp [runningCount, List.filter_append]

theorem mem_id_unique {l : List Task} (hnd : (l.map Task.id).Nodup)
    {t u : Task} (ht : t ∈ l) (hu : u ∈ l) (hid : t.id = u.id) : t = u :=
  List.inj_on_of_nodup_map hnd ht hu hid

theorem running_unique {l : List Task} (hrc : runningCount l = 1)
    {t : Task} (ht : t ∈ l) (htr : t.status = Status.RUNNING) :
    ∀ u ∈ l, u.status = Status.RUNNING → u = t := by
  intro u hu hur
  rcases List.length_eq_one.mp hrc with ⟨v, hv⟩
  have h1 : t ∈ l.filter (fun t => t.status = Status.RUNNING) :=
    List.mem_filter.mpr ⟨ht, by simp [htr]⟩
  have h2 : u ∈ l.filter (fun t => t.status = Status.RUNNING) :=
    List.mem_filter.mpr ⟨hu, by simp [hur]⟩
  rw [hv] at h1 h2
  simp only [List.mem_singleton] at h1 h2
  rw [h1, h2]

theorem runningCount_updateById_status_eq (l : List Task) (cid : Nat) (f : Task → Task)
    (hf : ∀ t, (f t).status = t.status) :
    runningCount (updateById l cid f) = runningCount l := by
  simp only [runningCount, updateById, List.filter_map, List.length_map]
  congr 1
  apply List.filter_congr
  intro t _
  by_cases h : t.id = cid <;> simp [h, hf]

theorem runningCount_updateById_zero {l : List Task} {cid : Nat} {f : Task → Task}
    (hex : ∃ t ∈ l, t.id = cid ∧ t.status = Status.RUNNING)
    (hrc : runningCount l = 1)
    (hf : ∀ t, (f t).status ≠ Status.RUNNING) :
    runningCount (updateById l cid f) = 0 := by
  rcases hex with ⟨t0, ht0, hid0, hrun0⟩
  rw [runningCount_eq_zero]
  intro u hu
  rcases mem_of_mem_updateById hu with ⟨t, ht, rfl⟩
  by_cases h : t.id = cid
  · simpa [h] using hf t
  · simp only [h, if_false]
    intro hrun
    exact h (by rw [running_unique hrc ht0 hrun0 t ht hrun]; exact hid0)

theorem bounded_of_map_id {l l2 : List Task} {n : Nat}
    (hmap : l2.map Task.id = l.map Task.id) (hbd : ∀ t ∈ l, t.id ≤ n) :
    ∀ t ∈ l2, t.id ≤ n := by
  intro t ht
  have : t.id ∈ l2.map Task.id := List.mem_map_of_mem _ ht
  rw [hmap] at this
  rcases List.mem_map.mp this with ⟨u, hu, hid⟩
  exact hid ▸ hbd u hu

/-! ### Characterization of the start-scan loop -/

theorem startScan_none {l : List Task} :
    startScan l = none ↔ ∀ t ∈ l, t.status ≠ Status.QUEUED := by
  induction l with
  | nil => simp [startScan]
  | cons t ts ih =>
    by_cases h : t.status = Status.QUEUED
    · simp [startScan, h]
    · cases hs : startScan ts with
      | none =>
          simp only [startScan, h, if_false, hs]
          constructor
          · intro _ u hu
            rcases List.mem_cons.mp hu with rfl | hmem
            · exact h
            · exact ih.mp hs u hmem
          · intro _
            trivial
      | some r =>
          obtain ⟨i, u, ts2⟩ := r
          simp only [startScan, h, if_false, hs]
          constructor
          · intro hc
            exact absurd hc (by simp)
          · intro hall
            have : startScan ts = none :=
              ih.mpr (fun v hv => hall v (List.mem_cons_of_mem _ hv))
            rw [hs] at this
            exact absurd this (by simp)

theorem startScan_some {l : List Task} {i : Nat} {u : Task} {l2 : List Task}
    (h : startScan l = some (i, u, l2)) :
    l.get? i = some u ∧ u.status = Status.QUEUED ∧
    l2 = l.set i { u with status := Status.RUNNING } ∧
    ∀ j, j < i → ∀ v, l.get? j = some v → v.status ≠ Status.QUEUED := by
  induction l generalizing i u l2 with
  | nil => exact absurd h (by simp [startScan])
  | cons t ts ih =>
    by_cases ht : t.status = Status.QUEUED
    · simp only [startScan, ht, if_true, Option.some.injEq, Prod.mk.injEq] at h
      obtain ⟨rfl, rfl, rfl⟩ := h
      refine ⟨rfl, ht, rfl, ?_⟩
      intro j hj
      exact absurd hj (Nat.not_lt_zero j)
    · simp only [startScan, ht, if_false] at h
      cases hs : startScan ts with
      | none =>
          rw [hs] at h
          exact absurd h (by simp)
      | some r =>
          obtain ⟨i0, u0, ts2⟩ := r
          rw [hs] at h
          simp only [Option.some.injEq, Prod.mk.injEq] at h
          obtain ⟨rfl, rfl, rfl⟩ := h
          obtain ⟨hget, hq, hset, hmin⟩ := ih hs
          refine ⟨hget, hq, by simp [hset], ?_⟩
          intro j hj v hv
          cases j with
          | zero =>
              simp only [List.get?] at hv
              cases hv
              exact ht
          | succ j0 =>
              exact hmin j0 (Nat.lt_of_succ_lt_succ hj) v hv

theorem startScan_complete {l : List Task} {i : Nat} {t : Task}
    (hget : l.get? i = some t) (hq : t.status = Status.QUEUED)
    (hmin : ∀ j, j < i → ∀ v, l.get? j = some v → v.status ≠ Status.QUEUED) :
    startScan l = some (i, t, l.set i { t with status := Status.RUNNING }) := by
  induction l generalizing i with
  | nil => exact absurd hget (by simp)
  | cons h0 ts ih =>
    cases i with
    | zero =>
        simp only [List.get?] at hget
        cases hget
        simp [startScan, hq]
    | succ i0 =>
        have hne : h0.status ≠ Status.QUEUED :=
          hmin 0 (Nat.succ_pos i0) h0 rfl
        have hmin2 : ∀ j, j < i0 → ∀ v, ts.get? j = some v → v.status ≠ Status.QUEUED := by
          intro j hj v hv
          exact hmin (j + 1) (Nat.succ_lt_succ hj) v hv
        have := ih (i := i0) hget hmin2
        simp [startScan, hne, this]

theorem startScan_map_id {l : List Task} {i : Nat} {u : Task} {l2 : List Task}
    (h : startScan l = some (i, u, l2)) :
    l2.map Task.id = l.map Task.id := by
  induction l generalizing i u l2 with
  | nil => exact absurd h (by simp [startScan])
  | cons t ts ih =>
    by_cases ht : t.status = Status.QUEUED
    · simp only [startScan, ht, if_true, Option.some.injEq, Prod.mk.injEq] at h
      obtain ⟨rfl, rfl, rfl⟩ := h
      simp
    · simp only [startScan, ht, if_false] at h
      cases hs : startScan ts with
      | none =>
          rw [hs] at h
          exact absurd h (by simp)
      | some r =>
          obtain ⟨i0, u0, ts2⟩ := r
          rw [hs] at h
          simp only [Option.some.injEq, Prod.mk.injEq] at h
          obtain ⟨rfl, rfl, rfl⟩ := h
          simp [ih hs]

theorem startScan_runningCount {l : List Task} {i : Nat} {u : Task} {l2 : List Task}
    (h : startScan l = some (i, u, l2)) :
    runningCount l2 = runningCount l + 1 := by
  induction l generalizing i u l2 with
  | nil => exact absurd h (by simp [startScan])
  | cons t ts ih =>
    by_cases ht : t.status = Status.QUEUED
    · simp only [startScan, ht, if_true, Option.some.injEq, Prod.mk.injEq] at h
      obtain ⟨rfl, rfl, rfl⟩ := h
      have : t.status ≠ Status.RUNNING := by
        rw [ht]
        intro hc
        exact absurd hc (by simp)
      simp [runningCount, List.filter_cons, this, Nat.add_comm]
    · simp only [startScan, ht, if_false] at h
      cases hs : startScan ts with
      | none =>
          rw [hs] at h
          exact absurd h (by simp)
      | some r =>
          obtain ⟨i0, u0, ts2⟩ := r
          rw [hs] at h
          simp only [Option.some.injEq, Prod.mk.injEq] at h
          obtain ⟨rfl, rfl, rfl⟩ := h
          have ihv := ih hs
          simp only [runningCount] at ihv ⊢
          by_cases hr : t.status = Status.RUNNING <;>
            simp [List.filter_cons, hr, ihv]

theorem startScan_mem {l : List Task} {i : Nat} {u : Task} {l2 : List Task}
    (h : startScan l = some (i, u, l2)) :
    { u with status := Status.RUNNING } ∈ l2 := by
  obtain ⟨hget, _, hset, _⟩ := startScan_some h
  rw [List.get?_eq_getElem?, List.getElem?_eq_some] at hget
  obtain ⟨hlt, _⟩ := hget
  rw [hset]
  exact List.mem_iff_getElem?.mpr ⟨i, List.getElem?_set_self (by simpa using hlt)⟩

theorem startScan_mem_preserved {l : List Task} {i : Nat} {u : Task} {l2 : List Task}
    (h : startScan l = some (i, u, l2)) {v : Task} (hv : v ∈ l)
    (hvq : v.status ≠ Status.QUEUED) : v ∈ l2 := by
  obtain ⟨hget, hq, hset, _⟩ := startScan_some h
  rcases List.mem_iff_getElem?.mp hv with ⟨j, hj⟩
  have hji : j ≠ i := by
    intro hc
    rw [hc, ← List.get?_eq_getElem?, hget] at hj
    cases hj
    exact hvq hq
  rw [hset]
  exact List.mem_iff_getElem?.mpr ⟨j, by rw [List.getElem?_set_ne (fun hc => hji hc.symm)]; exact hj⟩

/-! ### Unfolding equations for the operations -/

theorem addTask_false (s : ConvertList) (param : ConversionParameters) :
    addTask s false param = (s, false) :=
  rfl

theorem addTask_true (s : ConvertList) (param : ConversionParameters) :
    addTask s true param =
      ({ s with prev_index := s.prev_index + 1,
                m_tasks := s.m_tasks ++
                  [{ id := s.prev_index + 1, param := param, status := Status.QUEUED,
                     progress := 0, statusText := "" }] }, true) :=
  rfl

theorem removeTask_oob (s : ConvertList) (i : Nat) (hget : s.m_tasks.get? i = none) :
    removeTask s i = s := by
  unfold removeTask
  rw [hget]

theorem removeTask_running (s : ConvertList) (i : Nat) {t : Task}
    (hget : s.m_tasks.get? i = some t) (hrun : t.status = Status.RUNNING) :
    removeTask s i = s := by
  unfold removeTask
  rw [hget]
  simp [hrun]

theorem removeTask_not_running (s : ConvertList) (i : Nat) {t : Task}
    (hget : s.m_tasks.get? i = some t) (hrun : t.status ≠ Status.RUNNING) :
    removeTask s i = { s with m_tasks := s.m_tasks.eraseIdx i } := by
  unfold removeTask
  rw [hget]
  simp [hrun]

theorem progress_refreshed_none (s : ConvertList) (pc : Int)
    (hc : s.m_current_task = none) : progress_refreshed s pc = s := by
  unfold progress_refreshed
  rw [hc]

theorem progress_refreshed_some (s : ConvertList) (pc : Int) {cid : Nat}
    (hc : s.m_current_task = some cid) :
    progress_refreshed s pc =
      { s with m_tasks := updateById s.m_tasks cid (fun t => { t with progress := pc }) } := by
  unfold progress_refreshed
  rw [hc]

theorem stop_none (s : ConvertList) (hc : s.m_current_task = none) :
    stop s = ({ s with is_busy := false }, [Event.converter_stop]) := by
  simp [stop, hc]

theorem stop_some (s : ConvertList) {cid : Nat} (hc : s.m_current_task = some cid) :
    stop s =
      ({ s with
           m_tasks := updateById s.m_tasks cid
             (fun t => { t with progress := 0, status := Status.QUEUED }),
           m_current_task := none, is_busy := false },
       [Event.converter_stop]) := by
  have h2 := updateById_updateById s.m_tasks cid (fun t => { t with progress := 0 })
    (fun t => { t with status := Status.QUEUED }) (fun t => rfl)
  simp only [stop, progress_refreshed, hc, h2]

theorem start_busy (s : ConvertList) (hb : s.is_busy = true) : start s = (s, []) := by
  unfold start
  rw [hb]
  simp

theorem start_empty (s : ConvertList) (hb : s.is_busy = false) (he : s.m_tasks = []) :
    start s = stop s := by
  unfold start
  rw [hb, he]
  simp

theorem start_found (s : ConvertList) (hb : s.is_busy = false) {i : Nat} {u : Task}
    {l2 : List Task} (hs : startScan s.m_tasks = some (i, u, l2)) :
    start s = ({ s with is_busy := true, m_tasks := l2, m_current_task := some u.id },
               [Event.converter_start u.param, Event.start_conversion i u.param]) := by
  have hne : s.m_tasks ≠ [] := by
    intro hc
    rw [hc] at hs
    exact absurd hs (by simp [startScan])
  unfold start
  rw [hb, hs]
  simp [List.length_eq_zero, hne]

theorem start_none_queued (s : ConvertList) (hb : s.is_busy = false)
    (hne : s.m_tasks ≠ []) (hs : startScan s.m_tasks = none) :
    start s = ((stop s).1, (stop s).2 ++ [Event.all_tasks_finished]) := by
  unfold start
  rw [hb, hs]
  simp [List.length_eq_zero, hne]

theorem task_finished_none (s : ConvertList) (e : Int)
    (hc : s.m_current_task = none) : task_finished_slot s e = (s, []) := by
  unfold task_finished_slot
  rw [hc]

theorem task_finished_some (s : ConvertList) (e : Int) {cid : Nat}
    (hc : s.m_current_task = some cid) :
    task_finished_slot s e =
      ((start { s with m_tasks := updateById s.m_tasks cid (finishUpd e),
                       m_current_task := none, is_busy := false }).1,
       Event.task_finished e ::
         (start { s with m_tasks := updateById s.m_tasks cid (finishUpd e),
                         m_current_task := none, is_busy := false }).2) := by
  unfold task_finished_slot
  rw [hc]

/-! ### Preservation of the controller invariant -/

theorem currentOk_append_queued {o : Option Nat} {l : List Task} {b : Bool} {nt : Task}
    (hq : nt.status ≠ Status.RUNNING) (h : currentOk o l b) :
    currentOk o (l ++ [nt]) b := by
  have hrc1 : runningCount [nt] = 0 := by
    simp [runningCount, List.filter_cons, hq]
  cases o with
  | none =>
      obtain ⟨hrc, hb⟩ := h
      exact ⟨by rw [runningCount_append, hrc, hrc1], hb⟩
  | some cid =>
      obtain ⟨⟨t, ht, hid, hst⟩, hrc, hb⟩ := h
      exact ⟨⟨t, List.mem_append_left _ ht, hid, hst⟩,
             by rw [runningCount_append, hrc, hrc1], hb⟩

theorem filter_eraseIdx_of_neg {p : Task → Bool} {l : List Task} {i : Nat} {t : Task}
    (hget : l.get? i = some t) (hp : p t = false) :
    (l.eraseIdx i).filter p = l.filter p := by
  induction l generalizing i with
  | nil => exact absurd hget (by simp)
  | cons h0 ts ih =>
    cases i with
    | zero =>
        simp only [List.get?] at hget
        cases hget
        simp [List.eraseIdx, List.filter_cons, hp]
    | succ i0 =>
        simp only [List.get?] at hget
        simp [List.eraseIdx, List.filter_cons, ih hget]

theorem mem_eraseIdx_of_ne {l : List Task} {i : Nat} {t u : Task}
    (hget : l.get? i = some t) (hu : u ∈ l) (hne : u ≠ t) : u ∈ l.eraseIdx i := by
  induction l generalizing i with
  | nil => exact absurd hget (by simp)
  | cons h0 ts ih =>
    cases i with
    | zero =>
        simp only [List.get?] at hget
        cases hget
        rcases List.mem_cons.mp hu with rfl | hmem
        · exact absurd rfl hne
        · simpa [List.eraseIdx] using hmem
    | succ i0 =>
        simp only [List.get?] at hget
        rcases List.mem_cons.mp hu with rfl | hmem
        · simp [List.eraseIdx]
        · simp [List.eraseIdx, ih hget hmem]

theorem currentOk_eraseIdx {o : Option Nat} {l : List Task} {b : Bool} {i : Nat} {t : Task}
    (hget : l.get? i = some t) (hrun : t.status ≠ Status.RUNNING)
    (h : currentOk o l b) : currentOk o (l.eraseIdx i) b := by
  cases o with
  | none =>
      obtain ⟨hrc, hb⟩ := h
      refine ⟨?_, hb⟩
      rw [runningCount_eq_zero] at hrc ⊢
      intro u hu
      exact hrc u ((List.eraseIdx_sublist _ _).mem hu)
  | some cid =>
      obtain ⟨⟨t0, ht0, hid0, hst0⟩, hrc, hb⟩ := h
      refine ⟨⟨t0, mem_eraseIdx_of_ne hget ht0 ?_, hid0, hst0⟩, ?_, hb⟩
      · intro hc2
        rw [hc2] at hst0
        exact hrun hst0
      · unfold runningCount
        rw [filter_eraseIdx_of_neg hget (by simp [hrun])]
        exact hrc

theorem inv_initState : Inv initState :=
  ⟨List.nodup_nil, ⟨(by intro t ht; cases ht), ⟨rfl, rfl⟩⟩⟩

theorem inv_addTask (s : ConvertList) (probe_ok : Bool) (param : ConversionParameters)
    (h : Inv s) : Inv (addTask s probe_ok param).1 := by
  obtain ⟨hnd, hbd, hcur⟩ := h
  cases probe_ok with
  | false => exact ⟨hnd, hbd, hcur⟩
  | true =>
      rw [addTask_true]
      refine ⟨?_, ?_, ?_⟩
      · simp only [List.map_append]
        rw [List.nodup_append]
        refine ⟨hnd, List.nodup_singleton _, ?_⟩
        intro a ha ha2
        simp only [List.map_cons, List.map_nil, List.mem_singleton] at ha2
        rcases List.mem_map.mp ha with ⟨u, hu, hid⟩
        have := hbd u hu
        omega
      · intro t ht
        rcases List.mem_append.mp ht with hmem | hmem
        · exact Nat.le_succ_of_le (hbd t hmem)
        · simp only [List.mem_singleton] at hmem
          rw [hmem]
      · exact currentOk_append_queued (by simp) hcur

theorem inv_removeTask (s : ConvertList) (i : Nat) (h : Inv s) : Inv (removeTask s i) := by
  obtain ⟨hnd, hbd, hcur⟩ := h
  cases hget : s.m_tasks.get? i with
  | none =>
      rw [removeTask_oob s i hget]
      exact ⟨hnd, hbd, hcur⟩
  | some t =>
      by_cases hrun : t.status = Status.RUNNING
      · rw [removeTask_running s i hget hrun]
        exact ⟨hnd, hbd, hcur⟩
      · rw [removeTask_not_running s i hget hrun]
        have hsub : (s.m_tasks.eraseIdx i).Sublist s.m_tasks := List.eraseIdx_sublist _ _
        refine ⟨(hsub.map Task.id).nodup hnd, ?_, ?_⟩
        · intro u hu
          exact hbd u (hsub.mem hu)
        · exact currentOk_eraseIdx hget hrun hcur

theorem inv_progress (s : ConvertList) (pc : Int) (h : Inv s) :
    Inv (progress_refreshed s pc) := by
  obtain ⟨hnd, hbd, hcur⟩ := h
  cases hc : s.m_current_task with
  | none =>
      rw [progress_refreshed_none s pc hc]
      exact ⟨hnd, hbd, hcur⟩
  | some cid =>
      rw [progress_refreshed_some s pc hc]
      rw [hc] at hcur
      obtain ⟨⟨t0, ht0, hid0, hst0⟩, hrc, hb⟩ := hcur
      have hmap := updateById_map_id s.m_tasks cid
        (fun t => { t with progress := pc }) (fun t => rfl)
      refine ⟨by simpa [hmap] using hnd, bounded_of_map_id hmap hbd, ?_⟩
      show currentOk s.m_current_task _ s.is_busy
      rw [hc]
      refine ⟨⟨{ t0 with progress := pc }, ?_, hid0, hst0⟩, ?_, hb⟩
      · have := mem_updateById cid (fun t => { t with progress := pc }) ht0
        rwa [if_pos hid0] at this
      · show runningCount (updateById s.m_tasks cid (fun t => { t with progress := pc })) = 1
        rw [runningCount_updateById_status_eq s.m_tasks cid
          (fun t => { t with progress := pc }) (fun t => rfl)]
        exact hrc

theorem inv_stop (s : ConvertList) (h : Inv s) : Inv (stop s).1 := by
  obtain ⟨hnd, hbd, hcur⟩ := h
  cases hc : s.m_current_task with
  | none =>
      rw [stop_none s hc]
      rw [hc] at hcur
      obtain ⟨hrc, _⟩ := hcur
      refine ⟨hnd, hbd, ?_⟩
      show currentOk s.m_current_task s.m_tasks false
      rw [hc]
      exact ⟨hrc, rfl⟩
  | some cid =>
      rw [stop_some s hc]
      rw [hc] at hcur
      obtain ⟨hex, hrc, hb⟩ := hcur
      have hmap := updateById_map_id s.m_tasks cid
        (fun t => { t with progress := 0, status := Status.QUEUED }) (fun t => rfl)
      refine ⟨by simpa [hmap] using hnd, bounded_of_map_id hmap hbd, ?_⟩
      exact ⟨runningCount_updateById_zero hex hrc (fun t => by simp), rfl⟩

theorem inv_start (s : ConvertList) (h : Inv s) : Inv (start s).1 := by
  obtain ⟨hnd, hbd, hcur⟩ := h
  cases hb : s.is_busy with
  | true =>
      rw [start_busy s hb]
      exact ⟨hnd, hbd, hcur⟩
  | false =>
      have hcn : s.m_current_task = none := by
        cases hc : s.m_current_task with
        | none => rfl
        | some cid =>
            rw [hc] at hcur
            obtain ⟨_, _, hbt⟩ := hcur
            rw [hb] at hbt
            exact Bool.noConfusion hbt
      rw [hcn] at hcur
      obtain ⟨hrc, _⟩ := hcur
      cases hse : startScan s.m_tasks with
      | some r =>
          obtain ⟨i, u, l2⟩ := r
          rw [start_found s hb hse]
          have hmap := startScan_map_id hse
          refine ⟨by simpa [hmap] using hnd, bounded_of_map_id hmap hbd, ?_⟩
          refine ⟨⟨{ u with status := Status.RUNNING }, startScan_mem hse, rfl, rfl⟩, ?_, rfl⟩
          rw [startScan_runningCount hse, hrc]
      | none =>
          by_cases hne : s.m_tasks = []
          · rw [start_empty s hb hne, stop_none s hcn]
            refine ⟨hnd, hbd, ?_⟩
            show currentOk s.m_current_task s.m_tasks false
            rw [hcn]
            exact ⟨hrc, rfl⟩
          · rw [start_none_queued s hb hne hse, stop_none s hcn]
            refine ⟨hnd, hbd, ?_⟩
            show currentOk s.m_current_task s.m_tasks false
            rw [hcn]
            exact ⟨hrc, rfl⟩

theorem finishUpd_id (e : Int) : ∀ t : Task, (finishUpd e t).id = t.id := by
  intro t
  unfold finishUpd
  by_cases he : e = 0 <;> simp [he]

theorem finishUpd_not_running (e : Int) : ∀ t : Task, (finishUpd e t).status ≠ Status.RUNNING := by
  intro t
  unfold finishUpd
  by_cases he : e = 0 <;> simp [he]

theorem inv_finished (s : ConvertList) (e : Int) (h : Inv s) :
    Inv (task_finished_slot s e).1 := by
  obtain ⟨hnd, hbd, hcur⟩ := h
  cases hc : s.m_current_task with
  | none =>
      rw [task_finished_none s e hc]
      exact ⟨hnd, hbd, hcur⟩
  | some cid =>
      rw [task_finished_some s e hc]
      rw [hc] at hcur
      obtain ⟨hex, hrc, hb⟩ := hcur
      have hmap := updateById_map_id s.m_tasks cid (finishUpd e) (finishUpd_id e)
      have hinv1 : Inv { s with m_tasks := updateById s.m_tasks cid (finishUpd e),
                                m_current_task := none, is_busy := false } :=
        ⟨by simpa [hmap] using hnd, bounded_of_map_id hmap hbd,
         ⟨runningCount_updateById_zero hex hrc (finishUpd_not_running e), rfl⟩⟩
      exact inv_start _ hinv1

theorem inv_applyOp (s : ConvertList) (op : Op) (h : Inv s) : Inv (applyOp s op) := by
  cases op with
  | add probe_ok param => exact inv_addTask s probe_ok param h
  | remove i => exact inv_removeTask s i h
  | startOp => exact inv_start s h
  | stopOp => exact inv_stop s h
  | finished e => exact inv_finished s e h
  | progress pc => exact inv_progress s pc h

theorem reachable_inv {s : ConvertList} (h : Reachable s) : Inv s := by
  induction h with
  | init => exact inv_initState
  | step op _ ih => exact inv_applyOp _ op ih

/-! ### Further operation-level lemmas -/

theorem stop_events (s : ConvertList) : (stop s).2 = [Event.converter_stop] := by
  cases hc : s.m_current_task with
  | none => rw [stop_none s hc]
  | some cid => rw [stop_some s hc]

theorem stop_busy (s : ConvertList) : (stop s).1.is_busy = false := by
  cases hc : s.m_current_task with
  | none => rw [stop_none s hc]
  | some cid => rw [stop_some s hc]

theorem stop_prev (s : ConvertList) : (stop s).1.prev_index = s.prev_index := by
  cases hc : s.m_current_task with
  | none => rw [stop_none s hc]
  | some cid => rw [stop_some s hc]

theorem start_prev (s : ConvertList) : (start s).1.prev_index = s.prev_index := by
  cases hb : s.is_busy with
  | true => rw [start_busy s hb]
  | false =>
    cases hse : startScan s.m_tasks with
    | some r =>
        obtain ⟨i, u, l2⟩ := r
        rw [start_found s hb hse]
    | none =>
        by_cases hne : s.m_tasks = []
        · rw [start_empty s hb hne]
          exact stop_prev s
        · rw [start_none_queued s hb hne hse]
          exact stop_prev s

theorem finished_prev (s : ConvertList) (e : Int) :
    (task_finished_slot s e).1.prev_index = s.prev_index := by
  cases hc : s.m_current_task with
  | none => rw [task_finished_none s e hc]
  | some cid =>
      rw [task_finished_some s e hc]
      rw [start_prev]

theorem prev_index_mono (s : ConvertList) (op : Op) :
    s.prev_index ≤ (applyOp s op).prev_index := by
  cases op with
  | add probe_ok param =>
      cases probe_ok with
      | false => exact le_refl _
      | true =>
          rw [show applyOp s (Op.add true param) = (addTask s true param).1 from rfl,
              addTask_true]
          exact Nat.le_succ _
  | remove i =>
      show s.prev_index ≤ (removeTask s i).prev_index
      cases hget : s.m_tasks.get? i with
      | none => rw [removeTask_oob s i hget]
      | some t =>
          by_cases hrun : t.status = Status.RUNNING
          · rw [removeTask_running s i hget hrun]
          · rw [removeTask_not_running s i hget hrun]
  | startOp =>
      rw [show applyOp s Op.startOp = (start s).1 from rfl, start_prev]
  | stopOp =>
      rw [show applyOp s Op.stopOp = (stop s).1 from rfl, stop_prev]
  | finished e =>
      rw [show applyOp s (Op.finished e) = (task_finished_slot s e).1 from rfl,
          finished_prev]
  | progress pc =>
      show s.prev_index ≤ (progress_refreshed s pc).prev_index
      cases hc : s.m_current_task with
      | none => rw [progress_refreshed_none s pc hc]
      | some cid => rw [progress_refreshed_some s pc hc]

theorem finishUpd_status (e : Int) (t : Task) :
    (finishUpd e t).status = if e = 0 then Status.FINISHED else Status.FAILED := by
  unfold finishUpd
  by_cases he : e = 0 <;> simp [he]

theorem finishUpd_failure (e : Int) (t : Task) (he : e ≠ 0) :
    (finishUpd e t).progress = 0 ∧ (finishUpd e t).statusText = "Failed" := by
  unfold finishUpd
  simp [he]

theorem start_events_no_finished (s : ConvertList) :
    (start s).2.countP isTaskFinishedEv = 0 := by
  cases hb : s.is_busy with
  | true =>
      rw [start_busy s hb]
      rfl
  | false =>
    cases hse : startScan s.m_tasks with
    | some r =>
        obtain ⟨i, u, l2⟩ := r
        rw [start_found s hb hse]
        rfl
    | none =>
        by_cases hne : s.m_tasks = []
        · rw [start_empty s hb hne, stop_events s]
          rfl
        · rw [start_none_queued s hb hne hse, stop_events s]
          rfl

theorem start_tasks_unchanged (s : ConvertList) (hcur : s.m_current_task = none)
    (h : s.is_busy = true ∨ startScan s.m_tasks = none) :
    (start s).1.m_tasks = s.m_tasks := by
  rcases h with hb | hse
  · rw [start_busy s hb]
  · cases hb : s.is_busy with
    | true => rw [start_busy s hb]
    | false =>
        by_cases hne : s.m_tasks = []
        · rw [start_empty s hb hne, stop_none s hcur]
        · rw [start_none_queued s hb hne hse, stop_none s hcur]

theorem start_mem_preserved (s : ConvertList) (hcur : s.m_current_task = none)
    {u : Task} (hu : u ∈ s.m_tasks) (hq : u.status ≠ Status.QUEUED) :
    u ∈ (start s).1.m_tasks := by
  cases hb : s.is_busy with
  | true =>
      rw [start_busy s hb]
      exact hu
  | false =>
    cases hse : startScan s.m_tasks with
    | some r =>
        obtain ⟨i, v, l2⟩ := r
        rw [start_found s hb hse]
        exact startScan_mem_preserved hse hu hq
    | none =>
        rw [start_tasks_unchanged s hcur (Or.inr hse)]
        exact hu

theorem get?_updateById (l : List Task) (cid : Nat) (f : Task → Task) (i : Nat) :
    (updateById l cid f).get? i =
      (l.get? i).map (fun t => if t.id = cid then f t else t) := by
  simp [updateById, List.get?_eq_getElem?, List.getElem?_map]

theorem nodup_get_ne_id {l : List Task} (hnd : (l.map Task.id).Nodup) {i j : Nat}
    {t u : Task} (hi : l.get? i = some t) (hj : l.get? j = some u) (hij : i ≠ j) :
    t.id ≠ u.id := by
  intro heq
  rw [List.get?_eq_getElem?] at hi hj
  obtain ⟨hilt, hit⟩ := List.getElem?_eq_some.mp hi
  obtain ⟨hjlt, hju⟩ := List.getElem?_eq_some.mp hj
  apply hij
  refine List.getElem?_inj (by simpa using hilt) hnd ?_
  rw [List.getElem?_map, List.getElem?_map]
  rw [List.getElem?_eq_getElem hilt, List.getElem?_eq_getElem hjlt]
  simp [hit, hju, heq]

theorem current_none_of_not_busy (s : ConvertList) (hinv : Inv s)
    (hb : s.is_busy = false) : s.m_current_task = none := by
  obtain ⟨_, _, hcur⟩ := hinv
  cases hc : s.m_current_task with
  | none => rfl
  | some cid =>
      rw [hc] at hcur
      obtain ⟨_, _, hbt⟩ := hcur
      rw [hb] at hbt
      exact Bool.noConfusion hbt

theorem exState0_reachable : Reachable exState0 :=
  Reachable.step (Op.add true exParam) Reachable.init

theorem exState1_reachable : Reachable exState1 :=
  Reachable.step Op.startOp exState0_reachable

theorem exState2_reachable : Reachable exState2 :=
  Reachable.step (Op.finished 0) exState1_reachable

/-! ### Per-task status evolution across the operations -/

theorem status_in_same_list {l : List Task} (hnd : (l.map Task.id).Nodup)
    {id : Nat} {a b : Status}
    (ha : ∃ t ∈ l, t.id = id ∧ t.status = a)
    (hb2 : ∃ t ∈ l, t.id = id ∧ t.status = b) : a = b := by
  obtain ⟨t1, ht1, hid1, hst1⟩ := ha
  obtain ⟨t2, ht2, hid2, hst2⟩ := hb2
  rw [← hst1, ← hst2, mem_id_unique hnd ht1 ht2 (by rw [hid1, hid2])]

theorem status_in_updateById_preserve {l : List Task} {cid : Nat} {f : Task → Task}
    (hfid : ∀ t, (f t).id = t.id) (hfst : ∀ t, (f t).status = t.status)
    (hnd : (l.map Task.id).Nodup) {id : Nat} {a b : Status}
    (ha : ∃ t ∈ l, t.id = id ∧ t.status = a)
    (hb2 : ∃ t ∈ updateById l cid f, t.id = id ∧ t.status = b) :
    a = b := by
  obtain ⟨t1, ht1, hid1, hst1⟩ := ha
  obtain ⟨t2, ht2, hid2, hst2⟩ := hb2
  rcases mem_of_mem_updateById ht2 with ⟨v, hv, hveq⟩
  by_cases h : v.id = cid
  · rw [if_pos h] at hveq
    have hvid : v.id = id := by rw [← hid2, hveq, hfid]
    have h1v : t1 = v := mem_id_unique hnd ht1 hv (by rw [hid1, hvid])
    rw [← hst1, ← hst2, hveq, hfst, h1v]
  · rw [if_neg h] at hveq
    have hvid : v.id = id := by rw [← hid2, hveq]
    have h1v : t1 = v := mem_id_unique hnd ht1 hv (by rw [hid1, hvid])
    rw [← hst1, ← hst2, hveq, h1v]

theorem status_in_updateById_current {l : List Task} {cid : Nat} {f : Task → Task}
    (hfid : ∀ t, (f t).id = t.id)
    (hnd : (l.map Task.id).Nodup)
    (hex : ∃ t ∈ l, t.id = cid ∧ t.status = Status.RUNNING)
    {id : Nat} {a b : Status}
    (ha : ∃ t ∈ l, t.id = id ∧ t.status = a)
    (hb2 : ∃ t ∈ updateById l cid f, t.id = id ∧ t.status = b) :
    a = b ∨ (a = Status.RUNNING ∧ ∃ t : Task, (f t).status = b) := by
  obtain ⟨t1, ht1, hid1, hst1⟩ := ha
  obtain ⟨t2, ht2, hid2, hst2⟩ := hb2
  rcases mem_of_mem_updateById ht2 with ⟨v, hv, hveq⟩
  by_cases h : v.id = cid
  · rw [if_pos h] at hveq
    have hvid : v.id = id := by rw [← hid2, hveq, hfid]
    have h1v : t1 = v := mem_id_unique hnd ht1 hv (by rw [hid1, hvid])
    obtain ⟨t0, ht0, hid0, hst0⟩ := hex
    have h0v : t0 = v := mem_id_unique hnd ht0 hv (by rw [hid0, h])
    right
    refine ⟨?_, v, by rw [← hst2, hveq]⟩
    rw [← hst1, h1v, ← h0v]
    exact hst0
  · rw [if_neg h] at hveq
    have hvid : v.id = id := by rw [← hid2, hveq]
    have h1v : t1 = v := mem_id_unique hnd ht1 hv (by rw [hid1, hvid])
    left
    rw [← hst1, ← hst2, hveq, h1v]

theorem status_in_start (s : ConvertList) (hinv : Inv s) {id : Nat} {a b : Status}
    (ha : ∃ t ∈ s.m_tasks, t.id = id ∧ t.status = a)
    (hb2 : ∃ t ∈ (start s).1.m_tasks, t.id = id ∧ t.status = b) :
    a = b ∨ (a = Status.QUEUED ∧ b = Status.RUNNING) := by
  have hnd := hinv.1
  cases hbusy : s.is_busy with
  | true =>
      rw [start_busy s hbusy] at hb2
      exact Or.inl (status_in_same_list hnd ha hb2)
  | false =>
      have hcur := current_none_of_not_busy s hinv hbusy
      cases hse : startScan s.m_tasks with
      | none =>
          rw [start_tasks_unchanged s hcur (Or.inr hse)] at hb2
          exact Or.inl (status_in_same_list hnd ha hb2)
      | some r =>
          obtain ⟨i, u, l2⟩ := r
          rw [start_found s hbusy hse] at hb2
          obtain ⟨hget, hq, hset, hmin⟩ := startScan_some hse
          obtain ⟨t1, ht1, hid1, hst1⟩ := ha
          obtain ⟨t2, ht2, hid2, hst2⟩ := hb2
          replace ht2 : t2 ∈ l2 := ht2
          rw [hset] at ht2
          rcases List.mem_or_eq_of_mem_set ht2 with hmem | heq2
          · left
            rw [← hst1, ← hst2, mem_id_unique hnd ht1 hmem (by rw [hid1, hid2])]
          · right
            have humem : u ∈ s.m_tasks := by
              rw [List.get?_eq_getElem?] at hget
              exact List.mem_iff_getElem?.mpr ⟨i, hget⟩
            have huid : u.id = id := by
              rw [heq2] at hid2
              exact hid2
            have h1u : t1 = u := mem_id_unique hnd ht1 humem (by rw [hid1, huid])
            constructor
            · rw [← hst1, h1u]
              exact hq
            · rw [← hst2, heq2]

theorem status_in_stop (s : ConvertList) (hinv : Inv s) {id : Nat} {a b : Status}
    (ha : ∃ t ∈ s.m_tasks, t.id = id ∧ t.status = a)
    (hb2 : ∃ t ∈ (stop s).1.m_tasks, t.id = id ∧ t.status = b) :
    a = b ∨ (a = Status.RUNNING ∧ b = Status.QUEUED) := by
  obtain ⟨hnd, hbd, hcur⟩ := hinv
  cases hc : s.m_current_task with
  | none =>
      rw [stop_none s hc] at hb2
      exact Or.inl (status_in_same_list hnd ha hb2)
  | some cid =>
      rw [stop_some s hc] at hb2
      rw [hc] at hcur
      obtain ⟨hex, _, _⟩ := hcur
      have hstep := status_in_updateById_current
        (f := fun t => { t with progress := 0, status := Status.QUEUED })
        (fun t => rfl) hnd hex ha hb2
      rcases hstep with heq | ⟨har, ⟨t, hft⟩⟩
      · exact Or.inl heq
      · refine Or.inr ⟨har, ?_⟩
        rw [← hft]

theorem status_in_finished (s : ConvertList) (hinv : Inv s) (e : Int)
    {id : Nat} {a b : Status}
    (ha : ∃ t ∈ s.m_tasks, t.id = id ∧ t.status = a)
    (hb2 : ∃ t ∈ (task_finished_slot s e).1.m_tasks, t.id = id ∧ t.status = b) :
    a = b ∨ StatusEdge a b := by
  obtain ⟨hnd, hbd, hcur⟩ := hinv
  cases hc : s.m_current_task with
  | none =>
      rw [task_finished_none s e hc] at hb2
      exact Or.inl (status_in_same_list hnd ha hb2)
  | some cid =>
      rw [task_finished_some s e hc] at hb2
      rw [hc] at hcur
      obtain ⟨hex, hrc, hb⟩ := hcur
      obtain ⟨t1, ht1, hid1, hst1⟩ := ha
      have hmap := updateById_map_id s.m_tasks cid (finishUpd e) (finishUpd_id e)
      have hinv1 : Inv { s with m_tasks := updateById s.m_tasks cid (finishUpd e),
                                m_current_task := none, is_busy := false } :=
        ⟨by simpa [hmap] using hnd, bounded_of_map_id hmap hbd,
         ⟨runningCount_updateById_zero hex hrc (finishUpd_not_running e), rfl⟩⟩
      set u1 : Task := if t1.id = cid then finishUpd e t1 else t1 with hu1
      have hu1mem : u1 ∈ updateById s.m_tasks cid (finishUpd e) :=
        mem_updateById cid (finishUpd e) ht1
      have hu1id : u1.id = id := by
        rw [hu1]
        by_cases h : t1.id = cid
        · rw [if_pos h, finishUpd_id]
          exact hid1
        · rw [if_neg h]
          exact hid1
      have hmid : ∃ t ∈ updateById s.m_tasks cid (finishUpd e),
          t.id = id ∧ t.status = u1.status :=
        ⟨u1, hu1mem, hu1id, rfl⟩
      have hstep2 := status_in_start
        { s with m_tasks := updateById s.m_tasks cid (finishUpd e),
                 m_current_task := none, is_busy := false } hinv1 hmid hb2
      by_cases h : t1.id = cid
      · -- the finished task itself: it was RUNNING and becomes FINISHED or FAILED
        obtain ⟨t0, ht0, hid0, hst0⟩ := hex
        have h1t0 : t1 = t0 := mem_id_unique hnd ht1 ht0 (by rw [h, hid0])
        have harun : a = Status.RUNNING := by
          rw [← hst1, h1t0]
          exact hst0
      -- u1 = finishUpd e t1
        have hu1st : u1.status = (if e = 0 then Status.FINISHED else Status.FAILED) := by
          rw [hu1, if_pos h, finishUpd_status]
        rcases hstep2 with heq | ⟨hq2, _⟩
        · -- b = u1.status = FINISHED/FAILED
          rw [harun, ← heq, hu1st]
          by_cases he : e = 0
          · rw [if_pos he]
            exact Or.inr StatusEdge.finish_of_running
          · rw [if_neg he]
            exact Or.inr StatusEdge.fail_of_running
        · -- u1.status = QUEUED contradicts FINISHED/FAILED
          exfalso
          rw [hu1st] at hq2
          by_cases he : e = 0
          · rw [if_pos he] at hq2
            exact Status.noConfusion hq2
          · rw [if_neg he] at hq2
            exact Status.noConfusion hq2
      · -- a bystander task: unchanged by the update, possibly started
        have hu1st : u1.status = a := by
          rw [hu1, if_neg h]
          exact hst1
        rcases hstep2 with heq | ⟨hq2, hr2⟩
        · left
          rw [← heq, hu1st]
        · right
          rw [hu1st] at hq2
          rw [hq2, hr2]
          exact StatusEdge.run_of_queued

/-! ### The claims -/

/-- C1: in every state reachable by any sequence of addTask, removeTask,
start, stop, onFinished (`task_finished_slot`) and onProgress
(`progress_refreshed`) operations, at most one task in the list has
status `RUNNING`; `isBusy()` returns true if and only if exactly one task
is `RUNNING`; and `m_current_task` is non-null if and only if exactly one
`RUNNING` task exists. -/
theorem C1_single_running_invariant (s : ConvertList) (h : Reachable s) :
    runningCount s.m_tasks ≤ 1 ∧
    (isBusy s = true ↔ runningCount s.m_tasks = 1) ∧
    (s.m_current_task ≠ none ↔ runningCount s.m_tasks = 1) := by
  obtain ⟨hnd, hbd, hcur⟩ := reachable_inv h
  unfold isBusy
  cases hc : s.m_current_task with
  | none =>
      rw [hc] at hcur
      obtain ⟨hrc, hb⟩ := hcur
      rw [hrc, hb]
      exact ⟨by omega, by simp, by simp⟩
  | some cid =>
      rw [hc] at hcur
      obtain ⟨hex, hrc, hb⟩ := hcur
      rw [hrc, hb]
      exact ⟨le_refl 1, by simp, by simp⟩

/-- Witness for C1 at the concrete reachable state `exState1` (one task,
running). -/
theorem C1_witness :
    runningCount exState1.m_tasks ≤ 1 ∧
    (isBusy exState1 = true ↔ runningCount exState1.m_tasks = 1) ∧
    (exState1.m_current_task ≠ none ↔ runningCount exState1.m_tasks = 1) :=
  C1_single_running_invariant exState1 exState1_reachable

/-- C3: `start()` called while busy changes no state and emits no event;
`start()` called when not busy with a first `QUEUED` task at position `i`
sets the busy flag, marks exactly that task `RUNNING` (all other tasks
unchanged, by `List.set`), records it as current, calls the converter
exactly once with its parameters, and emits exactly one
`start_conversion` event carrying its position and parameters. -/
theorem C3_start_behaviour (s : ConvertList) (i : Nat) (t : Task) :
    (s.is_busy = true → start s = (s, [])) ∧
    (s.is_busy = false → s.m_tasks.get? i = some t → t.status = Status.QUEUED →
      (∀ j, j < i → ∀ u, s.m_tasks.get? j = some u → u.status ≠ Status.QUEUED) →
      start s = ({ s with is_busy := true,
                          m_tasks := s.m_tasks.set i { t with status := Status.RUNNING },
                          m_current_task := some t.id },
                 [Event.converter_start t.param, Event.start_conversion i t.param])) :=
  ⟨fun hb => start_busy s hb,
   fun hb hget hq hmin => start_found s hb (startScan_complete hget hq hmin)⟩

/-- Witness for C3 at the concrete state `exState0` (one queued task). -/
theorem C3_witness :
    exState0.is_busy = false ∧
    exState0.m_tasks.get? 0 =
      some { id := 1, param := exParam, status := Status.QUEUED,
             progress := 0, statusText := "" } ∧
    start exState0 =
      ({ exState0 with
           is_busy := true,
           m_tasks := exState0.m_tasks.set 0
             { id := 1, param := exParam, status := Status.RUNNING,
               progress := 0, statusText := "" },
           m_current_task := some 1 },
       [Event.converter_start exParam, Event.start_conversion 0 exParam]) :=
  ⟨rfl, rfl,
   (C3_start_behaviour exState0 0
      { id := 1, param := exParam, status := Status.QUEUED,
        progress := 0, statusText := "" }).2
     rfl rfl rfl (fun j hj => absurd hj (Nat.not_lt_zero j))⟩

/-- C4: when the probe succeeds, addTask returns true, appends exactly one
new `QUEUED` task at the end of the list, increases `count()` by exactly
one, assigns the new task `id = prev_index + 1`, strictly above every id
in the list; and no operation ever decreases the id counter, so ids are
never reused over the controller's lifetime. -/
theorem C4_addTask_success (s : ConvertList) (param : ConversionParameters)
    (hinv : Inv s) :
    (addTask s true param).2 = true ∧
    (addTask s true param).1.m_tasks =
      s.m_tasks ++ [{ id := s.prev_index + 1, param := param, status := Status.QUEUED,
                      progress := 0, statusText := "" }] ∧
    count (addTask s true param).1 = count s + 1 ∧
    (addTask s true param).1.prev_index = s.prev_index + 1 ∧
    (∀ t ∈ s.m_tasks, t.id < s.prev_index + 1) ∧
    (∀ op : Op, s.prev_index ≤ (applyOp s op).prev_index) := by
  refine ⟨rfl, rfl, ?_, rfl, ?_, prev_index_mono s⟩
  · have hlen : ∀ (nt : Task) (l : List Task), (l ++ [nt]).length = l.length + 1 := by
      intro nt l
      simp
    exact hlen _ _
  · intro t ht
    exact Nat.lt_succ_of_le (hinv.2.1 t ht)

/-- Witness for C4 at the initial state. -/
theorem C4_witness :
    (addTask initState true exParam).2 = true ∧
    (addTask initState true exParam).1.m_tasks =
      initState.m_tasks ++
        [{ id := initState.prev_index + 1, param := exParam, status := Status.QUEUED,
           progress := 0, statusText := "" }] ∧
    count (addTask initState true exParam).1 = count initState + 1 ∧
    (addTask initState true exParam).1.prev_index = initState.prev_index + 1 ∧
    (∀ t ∈ initState.m_tasks, t.id < initState.prev_index + 1) ∧
    (∀ op : Op, initState.prev_index ≤ (applyOp initState op).prev_index) :=
  C4_addTask_success initState exParam inv_initState

/-- C5: when the probe reports an error or does not complete
(`probe_ok = false`), addTask returns false and the state is completely
unchanged: no task created, `count()` unchanged, the id counter not
advanced, no status modified. -/
theorem C5_addTask_probe_failure (s : ConvertList) (param : ConversionParameters) :
    addTask s false param = (s, false) ∧
    (addTask s false param).2 = false ∧
    count (addTask s false param).1 = count s ∧
    (addTask s false param).1.prev_index = s.prev_index ∧
    (addTask s false param).1.m_tasks = s.m_tasks :=
  ⟨rfl, rfl, rfl, rfl, rfl⟩

/-- C9: removeTask on an in-range index whose task is RUNNING is a silent
no-op: the entire controller state (task list, statuses, busy flag,
current-task reference) is unchanged. -/
theorem C9_remove_running_noop (s : ConvertList) (i : Nat) (t : Task)
    (hget : s.m_tasks.get? i = some t) (hrun : t.status = Status.RUNNING) :
    removeTask s i = s :=
  removeTask_running s i hget hrun

/-- Witness for C9 at the concrete state `exState1` (the single task is
running at position 0). -/
theorem C9_witness :
    exState1.m_tasks.get? 0 =
      some { id := 1, param := exParam, status := Status.RUNNING,
             progress := 0, statusText := "" } ∧
    removeTask exState1 0 = exState1 :=
  ⟨rfl,
   C9_remove_running_noop exState1 0
     { id := 1, param := exParam, status := Status.RUNNING,
       progress := 0, statusText := "" } rfl rfl⟩

/-- C10: `progress_refreshed` never modifies the controller's model state:
counter, busy flag, current-task reference, list length and every task's
id, status and parameters are unchanged for any percentage; with no
current task it does nothing at all. -/
theorem C10_progress_display_only (s : ConvertList) (pc : Int) :
    (progress_refreshed s pc).prev_index = s.prev_index ∧
    (progress_refreshed s pc).is_busy = s.is_busy ∧
    (progress_refreshed s pc).m_current_task = s.m_current_task ∧
    (progress_refreshed s pc).m_tasks.map (fun t => (t.id, t.status, t.param)) =
      s.m_tasks.map (fun t => (t.id, t.status, t.param)) ∧
    count (progress_refreshed s pc) = count s ∧
    (s.m_current_task = none → progress_refreshed s pc = s) := by
  cases hc : s.m_current_task with
  | none =>
      rw [progress_refreshed_none s pc hc]
      exact ⟨rfl, rfl, hc, rfl, rfl, fun _ => rfl⟩
  | some cid =>
      rw [progress_refreshed_some s pc hc]
      refine ⟨rfl, rfl, hc, ?_, ?_, ?_⟩
      · show (updateById s.m_tasks cid (fun t => { t with progress := pc })).map
            (fun t => (t.id, t.status, t.param)) =
          s.m_tasks.map (fun t => (t.id, t.status, t.param))
        simp only [updateById, List.map_map]
        apply List.map_congr_left
        intro t _
        by_cases h : t.id = cid <;> simp [h]
      · show (updateById s.m_tasks cid (fun t => { t with progress := pc })).length =
          s.m_tasks.length
        exact length_updateById _ _ _
      · intro h0
        exact Option.noConfusion h0

/-- Witness for C10 at the concrete state `exState1` with percentage 55. -/
theorem C10_witness :
    (progress_refreshed exState1 55).prev_index = exState1.prev_index ∧
    (progress_refreshed exState1 55).is_busy = exState1.is_busy ∧
    (progress_refreshed exState1 55).m_current_task = exState1.m_current_task ∧
    (progress_refreshed exState1 55).m_tasks.map (fun t => (t.id, t.status, t.param)) =
      exState1.m_tasks.map (fun t => (t.id, t.status, t.param)) ∧
    count (progress_refreshed exState1 55) = count exState1 ∧
    (exState1.m_current_task = none → progress_refreshed exState1 55 = exState1) :=
  C10_progress_display_only exState1 55

/-- C2: with a current (RUNNING) task, `task_finished_slot exitcode` sets
that task's status to FINISHED when `exitcode = 0` and to FAILED
otherwise (on failure also forcing its displayed progress to 0 and its
row text to "Failed"), emits exactly one `task_finished` event carrying
the exit code, and equals `start` applied to the state with the
current-task reference and busy flag cleared (so the queue advances); with
no current task it is a no-op. -/
theorem C2_onFinished (s : ConvertList) (cid : Nat) (e : Int) :
    (s.m_current_task = none → task_finished_slot s e = (s, [])) ∧
    (Inv s → s.m_current_task = some cid →
      (task_finished_slot s e).2.countP isTaskFinishedEv = 1 ∧
      Event.task_finished e ∈ (task_finished_slot s e).2 ∧
      (∃ t ∈ (task_finished_slot s e).1.m_tasks, t.id = cid ∧
        t.status = (if e = 0 then Status.FINISHED else Status.FAILED) ∧
        (e ≠ 0 → t.progress = 0 ∧ t.statusText = "Failed")) ∧
      (∃ s1 : ConvertList, s1.m_current_task = none ∧ s1.is_busy = false ∧
        s1.m_tasks.map Task.id = s.m_tasks.map Task.id ∧
        task_finished_slot s e =
          ((start s1).1, Event.task_finished e :: (start s1).2))) := by
  constructor
  · exact fun hc => task_finished_none s e hc
  · intro hinv hc
    obtain ⟨hnd, hbd, hcur⟩ := hinv
    rw [hc] at hcur
    obtain ⟨⟨t0, ht0, hid0, hst0⟩, hrc, hb⟩ := hcur
    have heq := task_finished_some s e hc
    have hmap := updateById_map_id s.m_tasks cid (finishUpd e) (finishUpd_id e)
    refine ⟨?_, ?_, ?_, ?_⟩
    · rw [heq]
      show (Event.task_finished e ::
        (start { s with m_tasks := updateById s.m_tasks cid (finishUpd e),
                        m_current_task := none, is_busy := false }).2).countP
          isTaskFinishedEv = 1
      rw [List.countP_cons, start_events_no_finished]
      simp [isTaskFinishedEv]
    · rw [heq]
      exact List.mem_cons_self _ _
    · have hu : finishUpd e t0 ∈ updateById s.m_tasks cid (finishUpd e) := by
        have := mem_updateById cid (finishUpd e) ht0
        rwa [if_pos hid0] at this
      have hunq : (finishUpd e t0).status ≠ Status.QUEUED := by
        rw [finishUpd_status]
        by_cases he : e = 0 <;> simp [he]
      have hin : finishUpd e t0 ∈
          (start { s with m_tasks := updateById s.m_tasks cid (finishUpd e),
                          m_current_task := none, is_busy := false }).1.m_tasks :=
        start_mem_preserved _ rfl hu hunq
      refine ⟨finishUpd e t0, ?_, ?_, finishUpd_status e t0,
              fun he => finishUpd_failure e t0 he⟩
      · rw [heq]
        exact hin
      · rw [finishUpd_id]
        exact hid0
    · exact ⟨{ s with m_tasks := updateById s.m_tasks cid (finishUpd e),
                      m_current_task := none, is_busy := false },
             rfl, rfl, hmap, heq⟩

/-- Witness for C2 at the concrete state `exState1` with exit code 1
(failure). -/
theorem C2_witness :
    Inv exState1 ∧ exState1.m_current_task = some 1 ∧
    ((task_finished_slot exState1 1).2.countP isTaskFinishedEv = 1 ∧
     Event.task_finished 1 ∈ (task_finished_slot exState1 1).2 ∧
     (∃ t ∈ (task_finished_slot exState1 1).1.m_tasks, t.id = 1 ∧
       t.status = (if (1 : Int) = 0 then Status.FINISHED else Status.FAILED) ∧
       ((1 : Int) ≠ 0 → t.progress = 0 ∧ t.statusText = "Failed")) ∧
     (∃ s1 : ConvertList, s1.m_current_task = none ∧ s1.is_busy = false ∧
       s1.m_tasks.map Task.id = exState1.m_tasks.map Task.id ∧
       task_finished_slot exState1 1 =
         ((start s1).1, Event.task_finished 1 :: (start s1).2))) :=
  ⟨reachable_inv exState1_reachable, rfl,
   (C2_onFinished exState1 1 1).2 (reachable_inv exState1_reachable) rfl⟩

/-- C6: `stop()` on a state whose current task sits at position `i` (and
no QUEUED task precedes it) resets that task's displayed progress to 0,
demotes it to QUEUED (not FAILED), clears the current-task reference and
the busy flag; and `start()` called immediately afterwards re-selects the
same task at the same position and marks it RUNNING again. -/
theorem C6_stop_requeues_and_restart (s : ConvertList) (cid i : Nat) (t : Task)
    (hinv : Inv s) (hcur : s.m_current_task = some cid)
    (hget : s.m_tasks.get? i = some t) (hid : t.id = cid)
    (hmin : ∀ j, j < i → ∀ u, s.m_tasks.get? j = some u → u.status ≠ Status.QUEUED) :
    (stop s).1.m_tasks.get? i =
      some { t with progress := 0, status := Status.QUEUED } ∧
    (stop s).1.m_current_task = none ∧
    (stop s).1.is_busy = false ∧
    (start (stop s).1).1.m_current_task = some cid ∧
    (start (stop s).1).1.m_tasks.get? i =
      some { t with progress := 0, status := Status.RUNNING } ∧
    (start (stop s).1).2 =
      [Event.converter_start t.param, Event.start_conversion i t.param] := by
  obtain ⟨hnd, hbd, hcurOk⟩ := hinv
  have hstop := stop_some s hcur
  have hget2 : (stop s).1.m_tasks.get? i =
      some { t with progress := 0, status := Status.QUEUED } := by
    rw [hstop]
    show (updateById s.m_tasks cid
      (fun t => { t with progress := 0, status := Status.QUEUED })).get? i = _
    rw [get?_updateById, hget]
    simp [hid]
  have hmin2 : ∀ j, j < i → ∀ u, (stop s).1.m_tasks.get? j = some u →
      u.status ≠ Status.QUEUED := by
    intro j hj u hu
    rw [hstop] at hu
    replace hu : (updateById s.m_tasks cid
      (fun t => { t with progress := 0, status := Status.QUEUED })).get? j = some u := hu
    rw [get?_updateById] at hu
    cases hv : s.m_tasks.get? j with
    | none =>
        rw [hv] at hu
        exact Option.noConfusion hu
    | some v =>
        rw [hv] at hu
        have hvne : v.id ≠ cid := by
          rw [← hid]
          exact nodup_get_ne_id hnd hv hget (Nat.ne_of_lt hj)
        simp only [Option.map_some', if_neg hvne, Option.some.injEq] at hu
        rw [← hu]
        exact hmin j hj v hv
  have hscan := startScan_complete hget2 rfl hmin2
  have hb2 : (stop s).1.is_busy = false := stop_busy s
  have hfound := start_found (stop s).1 hb2 hscan
  have hlt : i < (stop s).1.m_tasks.length := by
    rw [List.get?_eq_getElem?] at hget2
    exact (List.getElem?_eq_some.mp hget2).1
  refine ⟨hget2, ?_, stop_busy s, ?_, ?_, ?_⟩
  · rw [hstop]
  · rw [hfound]
    show some t.id = some cid
    rw [hid]
  · rw [hfound]
    show ((stop s).1.m_tasks.set i
      { t with progress := 0, status := Status.RUNNING }).get? i = _
    rw [List.get?_eq_getElem?]
    rw [List.getElem?_set_self hlt]
  · rw [hfound]

/-- Witness for C6 at the concrete state `exState1` (its single task is
current, at position 0). -/
theorem C6_witness :
    Inv exState1 ∧ exState1.m_current_task = some 1 ∧
    exState1.m_tasks.get? 0 =
      some { id := 1, param := exParam, status := Status.RUNNING,
             progress := 0, statusText := "" } ∧
    ((stop exState1).1.m_tasks.get? 0 =
       some { id := 1, param := exParam, status := Status.QUEUED,
              progress := 0, statusText := "" } ∧
     (stop exState1).1.m_current_task = none ∧
     (stop exState1).1.is_busy = false ∧
     (start (stop exState1).1).1.m_current_task = some 1 ∧
     (start (stop exState1).1).1.m_tasks.get? 0 =
       some { id := 1, param := exParam, status := Status.RUNNING,
              progress := 0, statusText := "" } ∧
     (start (stop exState1).1).2 =
       [Event.converter_start exParam, Event.start_conversion 0 exParam]) :=
  ⟨reachable_inv exState1_reachable, rfl, rfl,
   C6_stop_requeues_and_restart exState1 1 0
     { id := 1, param := exParam, status := Status.RUNNING,
       progress := 0, statusText := "" }
     (reachable_inv exState1_reachable) rfl rfl rfl
     (fun j hj => absurd hj (Nat.not_lt_zero j))⟩

/-- C7 counterexample: at the initial state (empty list, not busy, so no
task has status QUEUED), `start()` does NOT emit `all_tasks_finished` —
it only calls `stop()` and returns — refuting the claim that the event is
emitted whenever no QUEUED task exists "or the list is empty". -/
theorem C7_counterexample :
    initState.is_busy = false ∧
    (∀ t ∈ initState.m_tasks, t.status ≠ Status.QUEUED) ∧
    Event.all_tasks_finished ∉ (start initState).2 :=
  ⟨rfl, fun t ht => absurd ht (List.not_mem_nil t), by decide⟩

/-- C7 (amended): whenever `start()` is called while not busy and no task
is QUEUED, it calls `stop()` (so the busy flag ends false and the
converter is halted); it emits `all_tasks_finished` if and only if the
task list is nonempty — on the empty list it returns after `stop()`
without emitting the event. -/
theorem C7_start_exhausted (s : ConvertList) (hb : s.is_busy = false)
    (hq : ∀ t ∈ s.m_tasks, t.status ≠ Status.QUEUED) :
    (start s).1.is_busy = false ∧
    Event.converter_stop ∈ (start s).2 ∧
    (Event.all_tasks_finished ∈ (start s).2 ↔ s.m_tasks ≠ []) := by
  have hse : startScan s.m_tasks = none := startScan_none.mpr hq
  by_cases hne : s.m_tasks = []
  · rw [start_empty s hb hne]
    refine ⟨stop_busy s, ?_, ?_⟩
    · rw [stop_events s]
      exact List.mem_singleton.mpr rfl
    · rw [stop_events s]
      simp [hne]
  · rw [start_none_queued s hb hne hse]
    refine ⟨stop_busy s, ?_, ?_⟩
    · show Event.converter_stop ∈ (stop s).2 ++ [Event.all_tasks_finished]
      rw [stop_events s]
      simp
    · show Event.all_tasks_finished ∈ (stop s).2 ++ [Event.all_tasks_finished] ↔
        s.m_tasks ≠ []
      rw [stop_events s]
      simp [hne]

/-- Witness for the amended C7 at the concrete state `exState2` (one
FINISHED task, not busy). -/
theorem C7_witness :
    exState2.is_busy = false ∧
    (∀ t ∈ exState2.m_tasks, t.status ≠ Status.QUEUED) ∧
    ((start exState2).1.is_busy = false ∧
     Event.converter_stop ∈ (start exState2).2 ∧
     (Event.all_tasks_finished ∈ (start exState2).2 ↔ exState2.m_tasks ≠ [])) :=
  ⟨rfl, by decide, C7_start_exhausted exState2 rfl (by decide)⟩

/-- C8: across every operation, a task's status changes only along the
edges QUEUED→RUNNING (start), RUNNING→FINISHED (exit 0), RUNNING→FAILED
(exit ≠ 0) and RUNNING→QUEUED (stop); a FINISHED or FAILED task never
changes status again. -/
theorem C8_status_machine (s : ConvertList) (op : Op) (id : Nat) (a b : Status)
    (hinv : Inv s)
    (ha : ∃ t ∈ s.m_tasks, t.id = id ∧ t.status = a)
    (hb2 : ∃ t ∈ (applyOp s op).m_tasks, t.id = id ∧ t.status = b) :
    (a = b ∨ StatusEdge a b) ∧
    ((a = Status.FINISHED ∨ a = Status.FAILED) → b = a) := by
  have hmain : a = b ∨ StatusEdge a b := by
    cases op with
    | add probe_ok param =>
        cases probe_ok with
        | false =>
            exact Or.inl (status_in_same_list hinv.1 ha hb2)
        | true =>
            left
            replace hb2 : ∃ t ∈ (addTask s true param).1.m_tasks,
                t.id = id ∧ t.status = b := hb2
            rw [addTask_true] at hb2
            obtain ⟨t1, ht1, hid1, hst1⟩ := ha
            obtain ⟨t2, ht2, hid2, hst2⟩ := hb2
            replace ht2 : t2 ∈ s.m_tasks ++
              [{ id := s.prev_index + 1, param := param, status := Status.QUEUED,
                 progress := 0, statusText := "" }] := ht2
            rcases List.mem_append.mp ht2 with hmem | hmem
            · rw [← hst1, ← hst2, mem_id_unique hinv.1 ht1 hmem (by rw [hid1, hid2])]
            · exfalso
              simp only [List.mem_singleton] at hmem
              have hle := hinv.2.1 t1 ht1
              rw [hmem] at hid2
              have hidnt : s.prev_index + 1 = id := hid2
              omega
    | remove i =>
        left
        replace hb2 : ∃ t ∈ (removeTask s i).m_tasks, t.id = id ∧ t.status = b := hb2
        cases hget : s.m_tasks.get? i with
        | none =>
            rw [removeTask_oob s i hget] at hb2
            exact status_in_same_list hinv.1 ha hb2
        | some t =>
            by_cases hrun : t.status = Status.RUNNING
            · rw [removeTask_running s i hget hrun] at hb2
              exact status_in_same_list hinv.1 ha hb2
            · rw [removeTask_not_running s i hget hrun] at hb2
              obtain ⟨t2, ht2, hid2, hst2⟩ := hb2
              replace ht2 : t2 ∈ s.m_tasks.eraseIdx i := ht2
              exact status_in_same_list hinv.1 ha
                ⟨t2, (List.eraseIdx_sublist _ _).mem ht2, hid2, hst2⟩
    | startOp =>
        rcases status_in_start s hinv ha hb2 with heq | ⟨hqa, hrb⟩
        · exact Or.inl heq
        · rw [hqa, hrb]
          exact Or.inr StatusEdge.run_of_queued
    | stopOp =>
        rcases status_in_stop s hinv ha hb2 with heq | ⟨hra, hqb⟩
        · exact Or.inl heq
        · rw [hra, hqb]
          exact Or.inr StatusEdge.requeue_of_running
    | finished e =>
        exact status_in_finished s hinv e ha hb2
    | progress pc =>
        left
        replace hb2 : ∃ t ∈ (progress_refreshed s pc).m_tasks,
            t.id = id ∧ t.status = b := hb2
        cases hc : s.m_current_task with
        | none =>
            rw [progress_refreshed_none s pc hc] at hb2
            exact status_in_same_list hinv.1 ha hb2
        | some cid =>
            rw [progress_refreshed_some s pc hc] at hb2
            exact status_in_updateById_preserve
              (f := fun t => { t with progress := pc })
              (fun t => rfl) (fun t => rfl) hinv.1 ha hb2
  refine ⟨hmain, ?_⟩
  intro hterm
  rcases hmain with heq | hedge
  · rw [heq]
  · cases hedge <;> rcases hterm with h | h <;> exact Status.noConfusion h

/-- Witness for C8: starting `exState0` moves its queued task 1 along the
edge QUEUED→RUNNING. -/
theorem C8_witness :
    Inv exState0 ∧
    (∃ t ∈ exState0.m_tasks, t.id = 1 ∧ t.status = Status.QUEUED) ∧
    (∃ t ∈ (applyOp exState0 Op.startOp).m_tasks, t.id = 1 ∧ t.status = Status.RUNNING) ∧
    ((Status.QUEUED = Status.RUNNING ∨ StatusEdge Status.QUEUED Status.RUNNING) ∧
     ((Status.QUEUED = Status.FINISHED ∨ Status.QUEUED = Status.FAILED) →
       Status.RUNNING = Status.QUEUED)) :=
  ⟨reachable_inv exState0_reachable, by decide, by decide,
   C8_status_machine exState0 Op.startOp 1 Status.QUEUED Status.RUNNING
     (reachable_inv exState0_reachable) (by decide) (by decide)⟩

end ConvertListModel
